import Mathlib

/-!
Shallow embedding of `src/src/lib.rs` (crate `rust-csv`): the `CsvFile`
table type, its accessors and mutators, and the parse (`read`) /
serialize (`write`) pipeline. Rust strings are modelled as `List Char`;
`Vec<T>` as `List T`; fallible operations (panicking indexing,
`Vec::remove`, `Vec::insert`) return `Option`; the I/O layer of `read`
is modelled by the sequence of per-line read results that
`BufReader::lines()` yields, each `Option (List Char)` standing for
`Result<String, io::Error>`.
-/

set_option autoImplicit false

namespace RustCsv

/-- A cell is a Rust `String`, modelled as its character list. -/
abbrev Cell := List Char

/-- A row is a `Vec<String>` of cells. -/
abbrev CsvRow := List Cell

/-- Embedding of `const CSV_SEP: &str = ","` (a single-character separator). -/
def csvSep : Char := ','

/-- Embedding of `struct CsvFile { heads: CsvHead, rows: Vec<CsvRow> }`. -/
structure CsvFile where
  heads : List Cell
  rows : List CsvRow
deriving DecidableEq, Repr

/-- Splitting a character list on a separator character, the semantics of
Rust `str::split` with a one-character pattern: always returns at least one
(possibly empty) segment, and `n` separators yield `n + 1` segments. -/
def splitOnChar (sep : Char) : List Char → List (List Char)
  | [] => [[]]
  | x :: xs =>
    match splitOnChar sep xs with
    | [] => [[]]
    | y :: ys => if x = sep then [] :: y :: ys else (x :: y) :: ys

/-- `row.split(CSV_SEP)` from `CsvFile::read`. -/
def splitSep (l : List Char) : List Cell := splitOnChar csvSep l

/-- `Vec::join(CSV_SEP)` as used by `CsvFile::write`. -/
def joinSep : List Cell → List Char
  | [] => []
  | [c] => c
  | c :: c2 :: cs => c ++ csvSep :: joinSep (c2 :: cs)

/-- `BufRead::lines` drops the line terminator and a carriage return that
preceded it: a segment that was `'\n'`-terminated loses a final `'\r'`. -/
def stripCR (l : List Char) : List Char :=
  if l.getLast? = some '\r' then l.dropLast else l

/-- The line sequence `BufReader::lines()` yields for a given file text:
split on `'\n'`; every segment but the last was newline-terminated and has
a trailing `'\r'` stripped; a final empty segment (text ending in `'\n'`)
yields no line. -/
def linesOf (text : List Char) : List (List Char) :=
  let segs := splitOnChar '\n' text
  let last := segs.getLast?.getD []
  segs.dropLast.map stripCR ++ (if last.isEmpty then [] else [last])

/-- Outcome of `CsvFile::read`: an `Err(io::Error)` return, a panic
(out-of-bounds index), or a successfully built table. -/
inductive ReadResult where
  | ioError
  | panicked
  | ok (f : CsvFile)
deriving DecidableEq, Repr

/-- Embedding of `CsvFile::read`. The argument models the I/O behaviour of
the source: `none` is a failed `File::open` (propagated by `?`); otherwise
the list holds one `Result<String, io::Error>` per line produced by
`buf.lines()`, with `none` an `Err`. The body mirrors the source:
`.flatten()` discards the `Err` lines (`List.filterMap id`), empty lines
are filtered out, each remaining line is split on `CSV_SEP`, and the table
is built from `contents[0]` (a panic when `contents` is empty) and
`contents[1..]`. -/
def readModel (openResult : Option (List (Option (List Char)))) : ReadResult :=
  match openResult with
  | none => .ioError
  | some lineResults =>
    match ((lineResults.filterMap id).filter (fun l => !l.isEmpty)).map splitSep with
    | [] => .panicked
    | first :: rest => .ok ⟨first, rest⟩

/-- `CsvFile::read` on a source whose open succeeds and whose every line is
read without error: the pure parse of the file text. -/
def parse (text : List Char) : ReadResult :=
  readModel (some ((linesOf text).map some))

/-- The text `CsvFile::write` produces when no I/O step fails: the header
line (only when `heads` is non-empty), then each row in order, every line
being the cells joined by `CSV_SEP` followed by `"\n"`, accumulated in the
order of the buffered writes. -/
def writeString (f : CsvFile) : List Char :=
  let afterHead := if f.heads.isEmpty then [] else joinSep f.heads ++ ['\n']
  f.rows.foldl (fun acc row => acc ++ joinSep row ++ ['\n']) afterHead

/-- Embedding of `Iterator::position` as used by `CsvFile::head_pos`:
index of the first element equal to `name`. -/
def listPos (name : Cell) : List Cell → Option Nat
  | [] => none
  | h :: t => if h = name then some 0 else (listPos name t).map (· + 1)

/-- `CsvFile::head_pos`. -/
def head_pos (f : CsvFile) (name : Cell) : Option Nat :=
  listPos name f.heads

/-- `CsvFile::cols`: resolve the header, then one entry per row — the
row's cell at the header's index when present, `""` otherwise. -/
def cols (f : CsvFile) (name : Cell) : Option (List Cell) :=
  match head_pos f name with
  | none => none
  | some index =>
    some (f.rows.map (fun row =>
      match row[index]? with
      | some data => data
      | none => []))

/-- `CsvFile::delete_head`: `Vec::remove` panics (`none`) when `position`
is out of bounds, else removes and returns the header there. -/
def delete_head (f : CsvFile) (position : Nat) : Option (Cell × CsvFile) :=
  match f.heads[position]? with
  | none => none
  | some h => some (h, { f with heads := f.heads.eraseIdx position })

/-- `CsvFile::delete_col`: delete the header at `position` (strict), then
for each row remove the cell at `position` when the row has one, skipping
shorter rows. -/
def delete_col (f : CsvFile) (position : Nat) : Option CsvFile :=
  match delete_head f position with
  | none => none
  | some (_, f1) =>
    some { f1 with
      rows := f1.rows.map (fun row =>
        if row[position]?.isNone then row else row.eraseIdx position) }

/-- `CsvFile::push_col`: append a cell to the row at `row`; silent no-op
when `row` is out of bounds. -/
def push_col (f : CsvFile) (row : Nat) (value : Cell) : CsvFile :=
  match f.rows[row]? with
  | none => f
  | some r => { f with rows := f.rows.set row (r ++ [value]) }

/-- `CsvFile::set_col`: replace the cell at `(row, col)`; silent no-op
when either index is out of bounds. -/
def set_col (f : CsvFile) (row col : Nat) (value : Cell) : CsvFile :=
  match f.rows[row]? with
  | none => f
  | some r =>
    match r[col]? with
    | none => f
    | some _ => { f with rows := f.rows.set row (r.set col value) }

/-- `Vec::insert` semantics: `none` (panic) when the position exceeds the
length, else insert, shifting the suffix right. -/
def insertAt (value : Cell) : Nat → List Cell → Option (List Cell)
  | 0, l => some (value :: l)
  | _ + 1, [] => none
  | p + 1, x :: xs => (insertAt value p xs).map (x :: ·)

/-- `CsvFile::insert_col`: `self.rows[row].insert(position, value)` — the
indexing panics when `row` is out of bounds, and the insert panics when
`position` exceeds that row's length. -/
def insert_col (f : CsvFile) (row position : Nat) (value : Cell) : Option CsvFile :=
  match f.rows[row]? with
  | none => none
  | some r =>
    match insertAt value position r with
    | none => none
    | some r2 => some { f with rows := f.rows.set row r2 }

/-! ### Properties of the splitting and joining primitives -/

theorem splitOnChar_cons (sep x : Char) (xs : List Char) :
    splitOnChar sep (x :: xs) =
      match splitOnChar sep xs with
      | [] => [[]]
      | y :: ys => if x = sep then [] :: y :: ys else (x :: y) :: ys := by
  rw [splitOnChar]

theorem splitOnChar_ne_nil (sep : Char) (l : List Char) : splitOnChar sep l ≠ [] := by
  cases l with
  | nil => simp [splitOnChar]
  | cons x xs =>
    rw [splitOnChar_cons]
    split
    · simp
    · split <;> simp

theorem splitOnChar_of_not_mem {sep : Char} {l : List Char} (h : sep ∉ l) :
    splitOnChar sep l = [l] := by
  induction l with
  | nil => rfl
  | cons x xs ih =>
    have hx : x ≠ sep := fun e => h (e ▸ List.mem_cons_self x xs)
    have hxs : sep ∉ xs := fun m => h (List.mem_cons_of_mem _ m)
    rw [splitOnChar_cons, ih hxs]
    simp [hx]

theorem splitOnChar_append {sep : Char} {a : List Char} (rest : List Char) (h : sep ∉ a) :
    splitOnChar sep (a ++ sep :: rest) = a :: splitOnChar sep rest := by
  induction a with
  | nil =>
    rw [List.nil_append, splitOnChar_cons]
    cases hs : splitOnChar sep rest with
    | nil => exact absurd hs (splitOnChar_ne_nil sep rest)
    | cons y ys => simp
  | cons x a2 ih =>
    have hx : x ≠ sep := fun e => h (e ▸ List.mem_cons_self x a2)
    have ha2 : sep ∉ a2 := fun m => h (List.mem_cons_of_mem _ m)
    rw [List.cons_append, splitOnChar_cons, ih ha2]
    simp [hx]

theorem length_splitOnChar (sep : Char) (l : List Char) :
    (splitOnChar sep l).length = l.count sep + 1 := by
  induction l with
  | nil => simp [splitOnChar]
  | cons x xs ih =>
    rw [splitOnChar_cons]
    cases hs : splitOnChar sep xs with
    | nil => exact absurd hs (splitOnChar_ne_nil sep xs)
    | cons y ys =>
      rw [hs] at ih
      by_cases hx : x = sep
      · simp only [if_pos hx, List.length_cons, List.count_cons, hx]
        simp at ih ⊢
        omega
      · simp only [if_neg hx, List.length_cons, List.count_cons]
        have : (x == sep) = false := by simpa using hx
        simp [this] at ih ⊢
        omega

theorem joinSep_cons (c c2 : Cell) (cs : List Cell) :
    joinSep (c :: c2 :: cs) = c ++ csvSep :: joinSep (c2 :: cs) := by
  rw [joinSep]

theorem mem_joinSep {x : Char} {cells : List Cell} (h : x ∈ joinSep cells) :
    x = csvSep ∨ ∃ c ∈ cells, x ∈ c := by
  induction cells with
  | nil => simp [joinSep] at h
  | cons c cs ih =>
    cases cs with
    | nil => exact Or.inr ⟨c, List.mem_cons_self c [], h⟩
    | cons c2 cs2 =>
      rw [joinSep_cons] at h
      rcases List.mem_append.mp h with hc | hrest
      · exact Or.inr ⟨c, List.mem_cons_self c _, hc⟩
      · rcases List.mem_cons.mp hrest with rfl | hj
        · exact Or.inl rfl
        · rcases ih hj with h1 | ⟨c2, hc2, hx⟩
          · exact Or.inl h1
          · exact Or.inr ⟨c2, List.mem_cons_of_mem _ hc2, hx⟩

theorem joinSep_ne_nil {cells : List Cell} (h0 : cells ≠ [])
    (h1 : ∀ c ∈ cells, c ≠ []) : joinSep cells ≠ [] := by
  match cells with
  | [c] => simpa [joinSep] using h1 c (List.mem_cons_self c [])
  | c :: c2 :: cs => rw [joinSep_cons]; simp

theorem splitSep_joinSep {cells : List Cell} (h0 : cells ≠ [])
    (h : ∀ c ∈ cells, csvSep ∉ c) :
    splitSep (joinSep cells) = cells := by
  induction cells with
  | nil => exact absurd rfl h0
  | cons c cs ih =>
    cases cs with
    | nil => exact splitOnChar_of_not_mem (h c (List.mem_cons_self c []))
    | cons c2 cs2 =>
      show splitOnChar csvSep (joinSep (c :: c2 :: cs2)) = _
      rw [joinSep_cons, splitOnChar_append _ (h c (List.mem_cons_self c _))]
      have := ih (by simp) (fun c3 hc3 => h c3 (List.mem_cons_of_mem _ hc3))
      rw [show splitOnChar csvSep (joinSep (c2 :: cs2)) = c2 :: cs2 from this]

theorem stripCR_of_not_mem {l : List Char} (h : ('\r' : Char) ∉ l) :
    stripCR l = l := by
  unfold stripCR
  split
  · next heq => exact absurd (List.mem_of_mem_getLast? heq) h
  · rfl

theorem splitOnChar_flat {ls : List (List Char)}
    (h : ∀ l ∈ ls, ('\n' : Char) ∉ l) :
    splitOnChar '\n' ((ls.map (fun l => l ++ ['\n'])).flatten) = ls ++ [[]] := by
  induction ls with
  | nil => simp [splitOnChar]
  | cons l ls2 ih =>
    have hstep : ((l :: ls2).map (fun l => l ++ ['\n'])).flatten
        = l ++ '\n' :: (ls2.map (fun l => l ++ ['\n'])).flatten := by
      simp
    rw [hstep, splitOnChar_append _ (h l (List.mem_cons_self l ls2)),
      ih (fun x hx => h x (List.mem_cons_of_mem _ hx))]
    rfl

theorem linesOf_flat {ls : List (List Char)}
    (h : ∀ l ∈ ls, ('\n' : Char) ∉ l ∧ ('\r' : Char) ∉ l) :
    linesOf ((ls.map (fun l => l ++ ['\n'])).flatten) = ls := by
  have hmap : List.map stripCR ls = ls := by
    calc List.map stripCR ls
        = List.map id ls := List.map_congr_left (fun l hl => stripCR_of_not_mem (h l hl).2)
      _ = ls := List.map_id ls
  unfold linesOf
  rw [splitOnChar_flat (fun l hl => (h l hl).1)]
  simp [hmap]

theorem foldl_write_eq (rows : List CsvRow) (init : List Char) :
    rows.foldl (fun acc row => acc ++ joinSep row ++ ['\n']) init
      = init ++ (rows.map (fun row => joinSep row ++ ['\n'])).flatten := by
  induction rows generalizing init with
  | nil => simp
  | cons r rs ih =>
    rw [List.foldl_cons, ih]
    simp

theorem writeString_eq (f : CsvFile) :
    writeString f = (if f.heads.isEmpty then [] else joinSep f.heads ++ ['\n'])
      ++ (f.rows.map (fun row => joinSep row ++ ['\n'])).flatten := by
  simp only [writeString]
  exact foldl_write_eq f.rows _

/-! ### Properties of `listPos` and `insertAt` -/

theorem listPos_eq_none_iff {name : Cell} {l : List Cell} :
    listPos name l = none ↔ ∀ c ∈ l, c ≠ name := by
  induction l with
  | nil => simp [listPos]
  | cons h t ih =>
    by_cases hh : h = name
    · simp [listPos, hh]
    · simp [listPos, hh, Option.map_eq_none', ih]

theorem listPos_eq_some_iff {name : Cell} {l : List Cell} {i : Nat} :
    listPos name l = some i ↔
      l[i]? = some name ∧ ∀ j, j < i → l[j]? ≠ some name := by
  induction l generalizing i with
  | nil => simp [listPos]
  | cons h t ih =>
    by_cases hh : h = name
    · subst hh
      cases i with
      | zero => simp [listPos]
      | succ k =>
        simp only [listPos, if_pos rfl]
        constructor
        · intro he
          exact absurd (Option.some.inj he) (Nat.succ_ne_zero k).symm
        · rintro ⟨-, hlt⟩
          exact absurd List.getElem?_cons_zero (hlt 0 (Nat.succ_pos k))
    · cases i with
      | zero =>
        simp only [listPos, if_neg hh]
        constructor
        · intro he
          rcases Option.map_eq_some'.mp he with ⟨k, -, hk⟩
          exact absurd hk (Nat.succ_ne_zero k)
        · rintro ⟨hget, -⟩
          rw [List.getElem?_cons_zero] at hget
          exact absurd (Option.some.inj hget) hh
      | succ k =>
        simp only [listPos, if_neg hh]
        constructor
        · intro he
          rcases Option.map_eq_some'.mp he with ⟨k2, hk2, hkeq⟩
          have hk : k2 = k := Nat.succ_injective hkeq
          subst hk
          rcases ih.mp hk2 with ⟨hget, hlt⟩
          refine ⟨by simpa using hget, ?_⟩
          intro j hj
          cases j with
          | zero =>
            rw [List.getElem?_cons_zero]
            intro he2
            exact hh (Option.some.inj he2)
          | succ j2 =>
            rw [List.getElem?_cons_succ]
            exact hlt j2 (Nat.lt_of_succ_lt_succ hj)
        · rintro ⟨hget, hlt⟩
          have hget2 : t[k]? = some name := by simpa using hget
          have hlt2 : ∀ j, j < k → t[j]? ≠ some name := by
            intro j hj
            have := hlt (j + 1) (Nat.succ_lt_succ hj)
            simpa using this
          rw [ih.mpr ⟨hget2, hlt2⟩]
          rfl

theorem insertAt_eq_none_iff {v : Cell} {p : Nat} {l : List Cell} :
    insertAt v p l = none ↔ l.length < p := by
  induction l generalizing p with
  | nil => cases p <;> simp [insertAt]
  | cons x xs ih =>
    cases p with
    | zero => simp [insertAt]
    | succ k => simp [insertAt, Option.map_eq_none', ih]

/-! ### The claims -/

/-- Claim C3: for every source whose open succeeds and whose text contains
zero non-empty lines after line splitting, error flattening and empty-line
filtering, `CsvFile::read` hits the unchecked index `contents[0]` of an
empty collection — a fatal panic, not a successful empty table and not a
recoverable error result. -/
theorem read_empty_input_panics (lrs : List (Option (List Char)))
    (h : (lrs.filterMap id).filter (fun l => !l.isEmpty) = []) :
    readModel (some lrs) = ReadResult.panicked
    ∧ readModel (some lrs) ≠ ReadResult.ioError
    ∧ ∀ f, readModel (some lrs) ≠ ReadResult.ok f := by
  have hp : readModel (some lrs) = ReadResult.panicked := by
    simp only [readModel]
    rw [h]
    rfl
  exact ⟨hp, by simp [hp], fun f => by simp [hp]⟩

/-- Witness for `read_empty_input_panics` at the empty source. -/
theorem read_empty_input_panics_witness :
    readModel (some [some []]) = ReadResult.panicked :=
  (read_empty_input_panics [some []] (by decide)).1

/-- Claim C2 as stated is false: a line whose read fails (`none` in the
line-result list) is silently discarded by `.flatten()` in `CsvFile::read`;
here a source with a failed middle line parses successfully instead of
returning an I/O error. -/
theorem read_line_error_swallowed_cex :
    readModel (some [some ['a'], none, some ['b']])
      = ReadResult.ok ⟨[['a']], [[['b']]]⟩
    ∧ readModel (some [some ['a'], none, some ['b']]) ≠ ReadResult.ioError := by
  decide

/-- Claim C2 amended: a failure of `File::open` propagates as an I/O error,
but a failure while reading an individual line is swallowed — `read`
behaves exactly as if the failing lines were absent from the source. -/
theorem read_io_error_spec :
    readModel none = ReadResult.ioError
    ∧ ∀ lrs, readModel (some lrs)
        = readModel (some ((lrs.filterMap id).map some)) := by
  refine ⟨rfl, fun lrs => ?_⟩
  have h2 : ((lrs.filterMap id).map some).filterMap id = lrs.filterMap id := by
    rw [List.filterMap_map]
    simp [Function.comp_def]
  simp only [readModel]
  rw [h2]

/-- Claim C10: splitting a line on `CSV_SEP` preserves empty fields —
`"a,,b"` yields `["a","","b"]`, `"a,"` yields `["a",""]` — and in general
the number of cells of a split line is one more than its comma count. -/
theorem splitSep_count_spec (line : List Char) :
    (splitSep line).length = line.count csvSep + 1
    ∧ splitSep ['a', ',', ',', 'b'] = [['a'], [], ['b']]
    ∧ splitSep ['a', ','] = [['a'], []] :=
  ⟨length_splitOnChar csvSep line, by decide, by decide⟩

/-- Claim C9: `head_pos` returns the first index whose header equals
`name` under exact equality (first occurrence wins on duplicates) and
`none` when no header matches; for headers `["a","b","c"]`,
`head_pos "b" = some 1` and `head_pos "z" = none`. -/
theorem head_pos_spec (f : CsvFile) (name : Cell) :
    (∀ i, head_pos f name = some i ↔
        f.heads[i]? = some name ∧ ∀ j, j < i → f.heads[j]? ≠ some name)
    ∧ (head_pos f name = none ↔ ∀ c ∈ f.heads, c ≠ name)
    ∧ head_pos ⟨[['a'], ['b'], ['c']], []⟩ ['b'] = some 1
    ∧ head_pos ⟨[['a'], ['b'], ['c']], []⟩ ['z'] = none :=
  ⟨fun _ => listPos_eq_some_iff, listPos_eq_none_iff, by decide, by decide⟩

/-- Claim C6: when `head_pos` finds `name` at index `i`, `cols` returns one
string per row — the row's cell at `i` when present, `""` otherwise; when
the name is not found it returns `none`; with zero rows it returns an
empty sequence. -/
theorem cols_spec (f : CsvFile) (name : Cell) :
    (∀ i, head_pos f name = some i →
        cols f name = some (f.rows.map (fun row => (row[i]?).getD [])))
    ∧ (head_pos f name = none → cols f name = none)
    ∧ (f.rows = [] → ∀ i, head_pos f name = some i → cols f name = some []) := by
  refine ⟨fun i hi => ?_, fun h0 => ?_, fun hr i hi => ?_⟩
  · simp only [cols]
    rw [hi]
    show some (f.rows.map (fun row =>
        match row[i]? with
        | some data => data
        | none => [])) = some (f.rows.map (fun row => (row[i]?).getD []))
    exact congrArg some (List.map_congr_left (fun r _ => by cases r[i]? <;> rfl))
  · simp only [cols]
    rw [h0]
  · simp only [cols]
    rw [hi, hr]
    rfl

/-- Witness for `cols_spec`: the spec's example, headers `["a","b"]`, rows
`[["1"],["2","x"]]`, column `"b"` is `["", "x"]`; and a missing name. -/
theorem cols_spec_witness :
    cols ⟨[['a'], ['b']], [[['1']], [['2'], ['x']]]⟩ ['b'] = some [[], ['x']]
    ∧ cols ⟨[['a'], ['b']], [[['1']], [['2'], ['x']]]⟩ ['z'] = none :=
  ⟨((cols_spec ⟨[['a'], ['b']], [[['1']], [['2'], ['x']]]⟩ ['b']).1 1
      (by decide)).trans (by decide),
   (cols_spec ⟨[['a'], ['b']], [[['1']], [['2'], ['x']]]⟩ ['z']).2.1 (by decide)⟩

/-- Claim C7: `insert_col` has no bounds guard on the row index — it is a
panic (`none`) when `row` is out of bounds of `rows`, and also when
`position` exceeds that row's length — in contrast to `push_col` and
`set_col`, which are silent no-ops for an out-of-range row index. -/
theorem insert_col_unchecked_spec (f : CsvFile) (row position : Nat) (v : Cell) :
    (f.rows.length ≤ row → insert_col f row position v = none)
    ∧ (∀ r, f.rows[row]? = some r → r.length < position →
        insert_col f row position v = none)
    ∧ (f.rows.length ≤ row → push_col f row v = f)
    ∧ (f.rows.length ≤ row → ∀ col, set_col f row col v = f) := by
  refine ⟨fun h => ?_, fun r hr hp => ?_, fun h => ?_, fun h col => ?_⟩
  · simp only [insert_col]
    rw [List.getElem?_eq_none_iff.mpr h]
  · simp only [insert_col]
    rw [hr]
    show (match insertAt v position r with
          | none => none
          | some r2 => some (CsvFile.mk f.heads (f.rows.set row r2))) = none
    rw [insertAt_eq_none_iff.mpr hp]
  · simp only [push_col]
    rw [List.getElem?_eq_none_iff.mpr h]
  · simp only [set_col]
    rw [List.getElem?_eq_none_iff.mpr h]

/-- Witness for `insert_col_unchecked_spec`: an out-of-bounds row index
makes `insert_col` panic where `push_col` and `set_col` leave the table
unchanged, and an out-of-range position within an existing row also makes
`insert_col` panic. -/
theorem insert_col_unchecked_spec_witness :
    insert_col ⟨[], [[['1']]]⟩ 3 0 ['z'] = none
    ∧ push_col ⟨[], [[['1']]]⟩ 3 ['z'] = ⟨[], [[['1']]]⟩
    ∧ set_col ⟨[], [[['1']]]⟩ 3 0 ['z'] = ⟨[], [[['1']]]⟩
    ∧ insert_col ⟨[], [[['1']]]⟩ 0 5 ['z'] = none :=
  ⟨(insert_col_unchecked_spec ⟨[], [[['1']]]⟩ 3 0 ['z']).1 (by decide),
   (insert_col_unchecked_spec ⟨[], [[['1']]]⟩ 3 0 ['z']).2.2.1 (by decide),
   (insert_col_unchecked_spec ⟨[], [[['1']]]⟩ 3 0 ['z']).2.2.2 (by decide) 0,
   (insert_col_unchecked_spec ⟨[], [[['1']]]⟩ 0 5 ['z']).2.1 [['1']]
     (by decide) (by decide)⟩

/-- Claim C8: with both indices in bounds, `set_col` replaces exactly the
cell at `(row, col)`, leaving the headers, every other row, and every
other cell of that row unchanged; with either index out of bounds it is a
silent no-op. -/
theorem set_col_spec (f : CsvFile) (row col : Nat) (v : Cell) :
    (∀ r, f.rows[row]? = some r → col < r.length →
        set_col f row col v = ⟨f.heads, f.rows.set row (r.set col v)⟩
        ∧ (f.rows.set row (r.set col v))[row]? = some (r.set col v)
        ∧ (∀ j, j ≠ row → (f.rows.set row (r.set col v))[j]? = f.rows[j]?)
        ∧ (r.set col v)[col]? = some v
        ∧ (∀ j, j ≠ col → (r.set col v)[j]? = r[j]?))
    ∧ (f.rows[row]? = none → set_col f row col v = f)
    ∧ (∀ r, f.rows[row]? = some r → r.length ≤ col → set_col f row col v = f) := by
  refine ⟨fun r hr hc => ?_, fun h0 => ?_, fun r hr hc => ?_⟩
  · have hrow : row < f.rows.length := (List.getElem?_eq_some_iff.mp hr).1
    refine ⟨?_, List.getElem?_set_self hrow, fun j hj => List.getElem?_set_ne (Ne.symm hj),
      List.getElem?_set_self hc, fun j hj => List.getElem?_set_ne (Ne.symm hj)⟩
    simp only [set_col]
    rw [hr]
    show (match r[col]? with
          | none => f
          | some _ => CsvFile.mk f.heads (f.rows.set row (r.set col v)))
        = CsvFile.mk f.heads (f.rows.set row (r.set col v))
    rw [List.getElem?_eq_getElem hc]
  · simp only [set_col]
    rw [h0]
  · simp only [set_col]
    rw [hr]
    show (match r[col]? with
          | none => f
          | some _ => CsvFile.mk f.heads (f.rows.set row (r.set col v))) = f
    rw [List.getElem?_eq_none_iff.mpr hc]

/-- Witness for `set_col_spec`: an in-bounds update replaces the one cell,
and an out-of-bounds row index leaves the table unchanged. -/
theorem set_col_spec_witness :
    set_col ⟨[['a']], [[['1'], ['2']]]⟩ 0 1 ['z'] = ⟨[['a']], [[['1'], ['z']]]⟩
    ∧ set_col ⟨[['a']], [[['1'], ['2']]]⟩ 5 0 ['z'] = ⟨[['a']], [[['1'], ['2']]]⟩ :=
  ⟨(((set_col_spec ⟨[['a']], [[['1'], ['2']]]⟩ 0 1 ['z']).1 [['1'], ['2']]
      (by decide) (by decide)).1).trans (by decide),
   (set_col_spec ⟨[['a']], [[['1'], ['2']]]⟩ 5 0 ['z']).2.1 (by decide)⟩

/-- Claim C5: `delete_col` removes the header at `position` — failing, as
`delete_head` does, when `position` is out of bounds of the headers — and
removes each row's cell at `position` when the row has one, leaving
shorter rows unchanged; the spec's example is the third conjunct. -/
theorem delete_col_spec (f : CsvFile) (p : Nat) :
    (p < f.heads.length →
        delete_col f p = some ⟨f.heads.eraseIdx p,
          f.rows.map (fun r => if p < r.length then r.eraseIdx p else r)⟩)
    ∧ (f.heads.length ≤ p → delete_col f p = none)
    ∧ delete_col ⟨[['a'], ['b'], ['c']], [[['1'], ['2']], [['3'], ['4'], ['5']]]⟩ 2
        = some ⟨[['a'], ['b']], [[['1'], ['2']], [['3'], ['4']]]⟩ := by
  refine ⟨fun h => ?_, fun h => ?_, by decide⟩
  · simp only [delete_col, delete_head]
    rw [List.getElem?_eq_getElem h]
    show some _ = some _
    refine congrArg some ?_
    refine congrArg (CsvFile.mk (f.heads.eraseIdx p)) ?_
    refine List.map_congr_left (fun r _ => ?_)
    by_cases hr : p < r.length
    · rw [List.getElem?_eq_getElem hr]
      simp [hr]
    · rw [List.getElem?_eq_none_iff.mpr (Nat.le_of_not_lt hr)]
      simp [hr]
  · simp only [delete_col, delete_head]
    rw [List.getElem?_eq_none_iff.mpr h]

/-- Witness for `delete_col_spec`: the spec's example and the strict
failure on an out-of-bounds header position. -/
theorem delete_col_spec_witness :
    delete_col ⟨[['a'], ['b'], ['c']], [[['1'], ['2']], [['3'], ['4'], ['5']]]⟩ 2
      = some ⟨[['a'], ['b']], [[['1'], ['2']], [['3'], ['4']]]⟩
    ∧ delete_col ⟨[['a']], []⟩ 3 = none :=
  ⟨((delete_col_spec ⟨[['a'], ['b'], ['c']],
      [[['1'], ['2']], [['3'], ['4'], ['5']]]⟩ 2).1 (by decide)).trans (by decide),
   (delete_col_spec ⟨[['a']], []⟩ 3).2.1 (by decide)⟩

/-- Claim C4: `write` emits a header line (headers joined by `,` plus a
line terminator) exactly when the headers are non-empty — an empty header
list produces no header line and no blank line — then every row in order,
cells joined by `,` plus a line terminator, as stored, with no padding or
truncation; a table with no headers and rows `[["x"]]` serializes to
exactly `"x\n"`. -/
theorem write_spec (f : CsvFile) :
    writeString f = (if f.heads = [] then [] else joinSep f.heads ++ ['\n'])
      ++ (f.rows.map (fun row => joinSep row ++ ['\n'])).flatten
    ∧ writeString ⟨[], [[['x']]]⟩ = ['x', '\n'] := by
  refine ⟨?_, by decide⟩
  rw [writeString_eq]
  by_cases h : f.heads = [] <;> simp [h]

/-- Claim C1 as stated is false: the table with headers `["a"]` and rows
`[[""]]` satisfies the claim's hypotheses — every row's length equals the
headers' length and no cell contains the delimiter — yet serializing it
gives `"a\n\n"`, whose empty row line is filtered out on parse, so the
round trip returns a table with no rows. -/
theorem write_read_roundtrip_cex :
    (∀ r ∈ (CsvFile.mk [['a']] [[[]]]).rows,
        r.length = (CsvFile.mk [['a']] [[[]]]).heads.length)
    ∧ (∀ c ∈ (CsvFile.mk [['a']] [[[]]]).heads, csvSep ∉ c)
    ∧ (∀ r ∈ (CsvFile.mk [['a']] [[[]]]).rows, ∀ c ∈ r, csvSep ∉ c)
    ∧ parse (writeString (CsvFile.mk [['a']] [[[]]]))
        = ReadResult.ok (CsvFile.mk [['a']] [])
    ∧ parse (writeString (CsvFile.mk [['a']] [[[]]]))
        ≠ ReadResult.ok (CsvFile.mk [['a']] [[[]]]) := by
  decide

/-- Claim C1 amended: for a table with non-empty headers, every row's
length equal to the headers' length, and every cell (header or row cell) a
non-empty string containing neither the delimiter `,` nor a line feed nor
a carriage return, serializing with `write` and parsing the result with
`read` yields a table with identical headers and identical rows. -/
theorem write_read_roundtrip (f : CsvFile)
    (hh : f.heads ≠ [])
    (hlen : ∀ r ∈ f.rows, r.length = f.heads.length)
    (hheads : ∀ c ∈ f.heads,
        c ≠ [] ∧ csvSep ∉ c ∧ ('\n' : Char) ∉ c ∧ ('\r' : Char) ∉ c)
    (hrows : ∀ r ∈ f.rows, ∀ c ∈ r,
        c ≠ [] ∧ csvSep ∉ c ∧ ('\n' : Char) ∉ c ∧ ('\r' : Char) ∉ c) :
    parse (writeString f) = ReadResult.ok f := by
  have hall : ∀ cells ∈ f.heads :: f.rows, cells ≠ []
      ∧ ∀ c ∈ cells, c ≠ [] ∧ csvSep ∉ c ∧ ('\n' : Char) ∉ c ∧ ('\r' : Char) ∉ c := by
    intro cells hc
    rcases List.mem_cons.mp hc with rfl | hm
    · exact ⟨hh, hheads⟩
    · refine ⟨?_, hrows cells hm⟩
      intro he
      apply hh
      have hl := hlen cells hm
      rw [he] at hl
      exact List.length_eq_zero.mp hl.symm
  have hstep1 : writeString f
      = (((f.heads :: f.rows).map joinSep).map (fun l => l ++ ['\n'])).flatten := by
    rw [writeString_eq]
    have hne : f.heads.isEmpty = false := List.isEmpty_eq_false.mpr hh
    simp [hne, Function.comp_def]
  have hchar : ∀ l ∈ (f.heads :: f.rows).map joinSep,
      ('\n' : Char) ∉ l ∧ ('\r' : Char) ∉ l := by
    intro l hl
    rcases List.mem_map.mp hl with ⟨cells, hcells, rfl⟩
    rcases hall cells hcells with ⟨-, hc⟩
    constructor
    · intro hx
      rcases mem_joinSep hx with h1 | ⟨c, hcin, hxc⟩
      · exact absurd h1 (by decide)
      · exact (hc c hcin).2.2.1 hxc
    · intro hx
      rcases mem_joinSep hx with h1 | ⟨c, hcin, hxc⟩
      · exact absurd h1 (by decide)
      · exact (hc c hcin).2.2.2 hxc
  have hlines : linesOf (writeString f) = (f.heads :: f.rows).map joinSep := by
    rw [hstep1]
    exact linesOf_flat hchar
  have hfm : (((f.heads :: f.rows).map joinSep).map some).filterMap id
      = (f.heads :: f.rows).map joinSep := by
    rw [List.filterMap_map]
    have hco : (id ∘ (some : List Char → Option (List Char))) = some := rfl
    rw [hco, List.filterMap_some]
  have hfil : ((f.heads :: f.rows).map joinSep).filter (fun l => !l.isEmpty)
      = (f.heads :: f.rows).map joinSep := by
    apply List.filter_eq_self.mpr
    intro l hl
    rcases List.mem_map.mp hl with ⟨cells, hcells, rfl⟩
    rcases hall cells hcells with ⟨hne, hc⟩
    simpa [Bool.not_eq_true', List.isEmpty_eq_false] using
      joinSep_ne_nil hne (fun c hcin => (hc c hcin).1)
  have hsplit : ((f.heads :: f.rows).map joinSep).map splitSep
      = f.heads :: f.rows := by
    calc ((f.heads :: f.rows).map joinSep).map splitSep
        = (f.heads :: f.rows).map (splitSep ∘ joinSep) := by rw [List.map_map]
      _ = (f.heads :: f.rows).map id := List.map_congr_left (fun cells hc =>
            splitSep_joinSep (hall cells hc).1
              (fun c hcin => ((hall cells hc).2 c hcin).2.1))
      _ = f.heads :: f.rows := List.map_id _
  show readModel (some ((linesOf (writeString f)).map some)) = ReadResult.ok f
  rw [hlines]
  simp only [readModel]
  rw [hfm, hfil, hsplit]

/-- Witness for `write_read_roundtrip`: the round trip at headers
`["a","b"]` with the single row `["1","2"]`. -/
theorem write_read_roundtrip_witness :
    parse (writeString (CsvFile.mk [['a'], ['b']] [[['1'], ['2']]]))
      = ReadResult.ok (CsvFile.mk [['a'], ['b']] [[['1'], ['2']]]) :=
  write_read_roundtrip (CsvFile.mk [['a'], ['b']] [[['1'], ['2']]])
    (by decide) (by decide) (by decide) (by decide)

end RustCsv
